import Mathlib

/-!
Shallow embedding of the billiard-score backend (src/app.js) over an explicit
store state.  The store mirrors the four persisted tables (games, players,
game_players, score_updates).  Row identifiers and creation timestamps are
modelled by counters (nextId, nextTime) advanced at each insert; store-call
failures are injected through explicit oracle parameters so that the
compensation paths of the two multi-step operations can be analysed.
-/

namespace Billiard

structure Game where
  id : Nat
  title : Option String
  deriving Repr, DecidableEq

structure Player where
  id : Nat
  name : String
  score : Int
  deriving Repr, DecidableEq

structure GamePlayer where
  id : Nat
  game_id : Nat
  player_id : Nat
  seat : Nat
  score : Int
  deriving Repr, DecidableEq

structure ScoreUpdate where
  id : Nat
  game_id : Nat
  player_id : Nat
  delta : Int
  created_at : Nat
  note : Option String
  deriving Repr, DecidableEq

structure Store where
  games : List Game
  players : List Player
  game_players : List GamePlayer
  score_updates : List ScoreUpdate
  nextId : Nat
  nextTime : Nat
  deriving Repr, DecidableEq

/-- HTTP outcome: 200 with a payload, 400 with an error message, or 500. -/
inductive Resp (α : Type) where
  | ok : α → Resp α
  | clientErr : String → Resp α
  | serverErr : String → Resp α
  deriving Repr, DecidableEq

/-! ### POST /games (app.js lines 84-165) -/

/-- The existence query: select id from players where id in (players).
Mirrors supabase .from(players).select(id).in(id, players). -/
def foundPlayers (st : Store) (pids : List Nat) : List Player :=
  st.players.filter (fun p => p.id ∈ pids)

/-- The game_players rows the creation loop writes for input list pids,
starting at row id base and 0-based position i: the row for the j-th
identifier has seat i+j+1 and score 0 (app.js lines 121-136). -/
def mkGPs (gid : Nat) : Nat → Nat → List Nat → List GamePlayer
  | _, _, [] => []
  | base, i, pid :: rest =>
    { id := base, game_id := gid, player_id := pid, seat := i + 1, score := 0 } ::
      mkGPs gid (base + 1) (i + 1) rest

/-- Sequential game_players insert loop.  failAt = some k makes the insert
with seat k (the k-th insert, 1-based) return a store error; inl is the
state after all inserts succeeded, inr the state at the failed insert. -/
def insGPs (gid : Nat) (failAt : Option Nat) : List Nat → Nat → Store → Store ⊕ Store
  | [], _, st => Sum.inl st
  | pid :: rest, i, st =>
    if failAt = some (i + 1) then Sum.inr st
    else
      insGPs gid failAt rest (i + 1)
        { st with
          game_players := st.game_players ++
            [{ id := st.nextId, game_id := gid, player_id := pid, seat := i + 1, score := 0 }],
          nextId := st.nextId + 1 }

/-- Creation rollback (app.js lines 139-144): delete game_players rows of the
game, then delete the game row.  cleanupFailAt = some 1 (resp. some 2) makes
the first (resp. second) delete throw; the catch only logs, so the remaining
calls are skipped and the original insert error still propagates. -/
def cleanupGame (gid : Nat) (failAt : Option Nat) (st : Store) : Store :=
  if failAt = some 1 then st
  else
    let st1 := { st with game_players := st.game_players.filter (fun gp => ¬ gp.game_id = gid) }
    if failAt = some 2 then st1
    else { st1 with games := st1.games.filter (fun g => ¬ g.id = gid) }

/-- POST /games.  players defaults to the empty list when the body carries no
players field (the legacy max_players/title shape).  The length gate runs
first; the positive-length test guarding the existence query in the source is
always true past that gate, so the query is modelled unconditionally. -/
def postGames (st : Store) (players : List Nat) (title : Option String)
    (gameInsFail : Bool) (gpFailAt : Option Nat) (cleanupFailAt : Option Nat) :
    Resp (Game × List GamePlayer) × Store :=
  if players.length < 2 ∨ 5 < players.length then
    (Resp.clientErr "max_players must be 2..5", st)
  else if (foundPlayers st players).length ≠ players.length then
    (Resp.clientErr "One or more players not found", st)
  else if gameInsFail then
    (Resp.serverErr "game insert failed", st)
  else
    let game : Game := { id := st.nextId, title := title }
    let st1 := { st with games := st.games ++ [game], nextId := st.nextId + 1 }
    match insGPs game.id gpFailAt players 0 st1 with
    | Sum.inl st2 =>
      (Resp.ok (game, st2.game_players.filter (fun gp => gp.game_id = game.id)), st2)
    | Sum.inr st2 =>
      (Resp.serverErr "game_players insert failed", cleanupGame game.id cleanupFailAt st2)

/-! ### POST /games/:id/round (app.js lines 253-343) -/

structure RoundResult where
  playerId : Nat
  delta : Int
  newScore : Int
  deriving Repr, DecidableEq

/-- Which store call of a loop iteration is made to fail: the score_updates
insert, the current-score read, or the score write. -/
inductive FailStep where
  | ins
  | read
  | upd
  deriving Repr, DecidableEq

/-- The current score read (app.js lines 298-305): maybeSingle on
game_players filtered by game and player, with score defaulting to 0 when no
row is found. -/
def findScoreL (l : List GamePlayer) (gid pid : Nat) : Int :=
  match l.find? (fun gp => gp.game_id = gid ∧ gp.player_id = pid) with
  | some gp => gp.score
  | none => 0

/-- The effect of the score write on one row: set score to ns when the row
matches the game and player. -/
def bump1 (gid pid : Nat) (ns : Int) (gp : GamePlayer) : GamePlayer :=
  if gp.game_id = gid ∧ gp.player_id = pid then { gp with score := ns } else gp

/-- The score write (app.js lines 306-312): set score on every game_players
row matching the game and player. -/
def bumpScore (gid pid : Nat) (ns : Int) (l : List GamePlayer) : List GamePlayer :=
  l.map (bump1 gid pid ns)

/-- The sequential loop of POST /games/:id/round (app.js lines 284-315).
Per pair, in order: insert a score_updates row, read the current score
(maybeSingle errors when more than one row matches), write back
current+delta (the select single after the write errors unless exactly one
row was matched, after the write itself already applied).  Returns the state,
the inserted update ids, the accumulated results, and the error if any. -/
def roundLoop (gid : Nat) (note : Option String) (failAt : Option (Nat × FailStep)) :
    List (Nat × Int) → Nat → Store → List Nat → List RoundResult →
    Store × List Nat × List RoundResult × Option String
  | [], _, st, ins, res => (st, ins, res, none)
  | (pid, d) :: rest, i, st, ins, res =>
    if failAt = some (i, FailStep.ins) then (st, ins, res, some "score_updates insert failed")
    else
      let u : ScoreUpdate :=
        { id := st.nextId, game_id := gid, player_id := pid, delta := d,
          created_at := st.nextTime, note := note }
      let st1 : Store := { st with
        score_updates := st.score_updates ++ [u],
        nextId := st.nextId + 1,
        nextTime := st.nextTime + 1 }
      let ins1 := ins ++ [u.id]
      if failAt = some (i, FailStep.read) then (st1, ins1, res, some "score read failed")
      else if 1 < (st1.game_players.filter
          (fun gp => gp.game_id = gid ∧ gp.player_id = pid)).length then
        (st1, ins1, res, some "multiple rows for maybeSingle")
      else
        let ns : Int := findScoreL st1.game_players gid pid + d
        if failAt = some (i, FailStep.upd) then (st1, ins1, res, some "score write failed")
        else
          let st2 := { st1 with game_players := bumpScore gid pid ns st1.game_players }
          if (st1.game_players.filter
              (fun gp => gp.game_id = gid ∧ gp.player_id = pid)).length ≠ 1 then
            (st2, ins1, res, some "single row expected")
          else
            roundLoop gid note failAt rest (i + 1) st2 ins1 (res ++ [⟨pid, d, ns⟩])

/-- Score-revert half of the round rollback (app.js lines 324-331): for each
recorded result, in order, write back newScore - delta.  rbFail = some c
makes the c-th rollback call (1-based over these writes, call 0 being the
ledger delete) throw, skipping the rest. -/
def revertScores (gid : Nat) (rbFail : Option Nat) : List RoundResult → Nat → Store → Store
  | [], _, st => st
  | r :: rest, c, st =>
    if rbFail = some c then st
    else
      revertScores gid rbFail rest (c + 1)
        { st with game_players := bumpScore gid r.playerId (r.newScore - r.delta) st.game_players }

/-- Round rollback (app.js lines 316-335): delete the score_updates rows
inserted in this operation (skipped when none were), then revert each applied
score change.  A throw anywhere in here is caught and only logged. -/
def roundRollback (gid : Nat) (ins : List Nat) (res : List RoundResult) (rbFail : Option Nat)
    (st : Store) : Store :=
  if rbFail = some 0 then st
  else
    let st1 :=
      if ins.isEmpty then st
      else { st with score_updates := st.score_updates.filter (fun u => ¬ u.id ∈ ins) }
    revertScores gid rbFail res 1 st1

/-- POST /games/:id/round.  A player id of 0 stands for a JS-falsy id (the
source rejects those); the membership query counts the game_players rows of
the game whose player is listed. -/
def postRound (st : Store) (gid : Nat) (scores : List (Nat × Int)) (note : Option String)
    (failAt : Option (Nat × FailStep)) (rbFail : Option Nat) :
    Resp (List RoundResult) × Store :=
  if scores = [] then (Resp.clientErr "scores must be a non-empty array", st)
  else
    let playerIds := scores.map Prod.fst
    if playerIds.any (fun pid => pid = 0) then (Resp.clientErr "invalid playerId in scores", st)
    else
      let membership :=
        (st.game_players.filter (fun gp => gp.game_id = gid ∧ gp.player_id ∈ playerIds)).map
          (fun gp => gp.player_id)
      if membership.length ≠ playerIds.length then
        (Resp.clientErr "one or more playerIds are not part of this game", st)
      else
        match roundLoop gid note failAt scores 0 st [] [] with
        | (st1, _, res, none) => (Resp.ok res, st1)
        | (st1, ins, res, some err) => (Resp.serverErr err, roundRollback gid ins res rbFail st1)

/-! ### POST /games/:id/undo (app.js lines 346-376) -/

structure UndoOut where
  reverted : Nat
  playerId : Nat
  newScore : Int
  deriving Repr, DecidableEq

/-- Order by created_at descending, limit 1: the row with the greatest
creation time among the filtered rows (ties resolved towards the earlier
row, irrelevant under distinct timestamps). -/
def pickLatest : List ScoreUpdate → Option ScoreUpdate
  | [] => none
  | u :: rest =>
    match pickLatest rest with
    | none => some u
    | some v => if u.created_at < v.created_at then some v else some u

/-- POST /games/:id/undo.  Note the source reads and writes the score column
of the players table here (not game_players): the row is fetched by
maybeSingle without an error check, and a missing player makes the
member access throw, which the outer catch turns into a 500. -/
def postUndo (st : Store) (gid : Nat) : Resp UndoOut × Store :=
  match pickLatest (st.score_updates.filter (fun u => u.game_id = gid)) with
  | none => (Resp.clientErr "no updates", st)
  | some last =>
    match st.players.find? (fun p => p.id = last.player_id) with
    | none => (Resp.serverErr "cannot read score of null", st)
    | some p =>
      let ns : Int := p.score - last.delta
      let st1 : Store := { st with
        players := st.players.map
          (fun q => if q.id = last.player_id then { q with score := ns } else q) }
      let st2 : Store := { st1 with
        score_updates := st1.score_updates.filter (fun u => ¬ u.id = last.id) }
      (Resp.ok ⟨last.id, last.player_id, ns⟩, st2)

/-! ### Derived descriptions used to state the theorems -/

/-- The net effect of a successful round on one game_players row: its delta
added when its player is listed and the row belongs to the game. -/
def applyDelta1 (gid : Nat) (scores : List (Nat × Int)) (gp : GamePlayer) : GamePlayer :=
  match scores.lookup gp.player_id with
  | some d => if gp.game_id = gid then { gp with score := gp.score + d } else gp
  | none => gp

/-- The net effect of a successful round on the game_players table: every row
of the game whose player is listed gets its delta added, all other rows are
untouched. -/
def applyDeltas (gid : Nat) (scores : List (Nat × Int)) (l : List GamePlayer) : List GamePlayer :=
  l.map (applyDelta1 gid scores)

/-- The ledger rows a round writes: one per input pair, in order, with
consecutive ids from b and creation times from t. -/
def mkUpdates (gid : Nat) (note : Option String) : Nat → Nat → List (Nat × Int) → List ScoreUpdate
  | _, _, [] => []
  | b, t, (pid, d) :: rest =>
    { id := b, game_id := gid, player_id := pid, delta := d, created_at := t, note := note } ::
      mkUpdates gid note (b + 1) (t + 1) rest

/-- Consecutive ids b, b+1, ..., b+n-1. -/
def mkIds : Nat → Nat → List Nat
  | _, 0 => []
  | b, n + 1 => b :: mkIds (b + 1) n

/-- The response entries of a successful round, relative to the game_players
rows l at operation start. -/
def roundResultsOf (l : List GamePlayer) (gid : Nat) (scores : List (Nat × Int)) :
    List RoundResult :=
  scores.map (fun pd => ⟨pd.1, pd.2, findScoreL l gid pd.1 + pd.2⟩)

/-- Store invariant: one game_players row per player within a game. -/
def perGameNodupL (l : List GamePlayer) (gid : Nat) : Prop :=
  ((l.filter (fun gp => gp.game_id = gid)).map (fun gp => gp.player_id)).Nodup

instance (l : List GamePlayer) (gid : Nat) : Decidable (perGameNodupL l gid) := by
  unfold perGameNodupL
  infer_instance

/-- The error message surfaced when the given loop step fails. -/
def stepErr : FailStep → String
  | FailStep.ins => "score_updates insert failed"
  | FailStep.read => "score read failed"
  | FailStep.upd => "score write failed"

/-- How many ledger rows the failing iteration itself has inserted by the
time the given step fails. -/
def stepExtra : FailStep → Nat
  | FailStep.ins => 0
  | FailStep.read => 1
  | FailStep.upd => 1

/-! ### Concrete stores for the witness theorems -/

/-- A roster of three players and no games. -/
def sampleStore : Store :=
  { games := [], players := [⟨10, "A", 0⟩, ⟨11, "B", 0⟩, ⟨12, "C", 0⟩],
    game_players := [], score_updates := [], nextId := 100, nextTime := 1000 }

/-- One game with two members and an empty ledger. -/
def roundStore : Store :=
  { games := [⟨1, some "g"⟩], players := [⟨10, "A", 7⟩, ⟨11, "B", 3⟩],
    game_players := [⟨20, 1, 10, 1, 4⟩, ⟨21, 1, 11, 2, 9⟩],
    score_updates := [], nextId := 100, nextTime := 1000 }

/-- Same game with two ledger rows; the most recent is id 51. -/
def undoStore : Store :=
  { games := [⟨1, some "g"⟩], players := [⟨10, "A", 7⟩, ⟨11, "B", 3⟩],
    game_players := [⟨20, 1, 10, 1, 4⟩, ⟨21, 1, 11, 2, 9⟩],
    score_updates := [⟨50, 1, 10, 5, 500, none⟩, ⟨51, 1, 11, -2, 501, none⟩],
    nextId := 100, nextTime := 1000 }

/-! ### Counting lemmas for the existence and membership checks -/

theorem nodup_length_eq_of_mem_iff {L S : List Nat} (hL : L.Nodup) (hS : S.Nodup)
    (h : ∀ a, a ∈ L ↔ a ∈ S) : L.length = S.length := by
  have h1 : L.toFinset = S.toFinset := by
    ext a
    simp only [List.mem_toFinset]
    exact h a
  calc L.length = L.toFinset.card := (List.toFinset_card_of_nodup hL).symm
    _ = S.toFinset.card := by rw [h1]
    _ = S.length := List.toFinset_card_of_nodup hS

theorem nodup_length_lt_of_missing {L S : List Nat} {x : Nat} (hL : L.Nodup)
    (hsub : ∀ a ∈ L, a ∈ S) (hxS : x ∈ S) (hxL : x ∉ L) : L.length < S.length := by
  have h1 : L.toFinset ⊆ S.toFinset.erase x := by
    intro a ha
    rw [List.mem_toFinset] at ha
    refine Finset.mem_erase.2 ⟨?_, List.mem_toFinset.2 (hsub a ha)⟩
    rintro rfl
    exact hxL ha
  have h2 : L.length = L.toFinset.card := (List.toFinset_card_of_nodup hL).symm
  have h3 : L.toFinset.card ≤ (S.toFinset.erase x).card := Finset.card_le_card h1
  have h4 : (S.toFinset.erase x).card = S.toFinset.card - 1 :=
    Finset.card_erase_of_mem (List.mem_toFinset.2 hxS)
  have h5 : S.toFinset.card ≤ S.length := List.toFinset_card_le S
  have h6 : 0 < S.toFinset.card := Finset.card_pos.2 ⟨x, List.mem_toFinset.2 hxS⟩
  omega

theorem nodup_length_lt_of_dup {L S : List Nat} (hL : L.Nodup)
    (hsub : ∀ a ∈ L, a ∈ S) (hS : ¬ S.Nodup) : L.length < S.length := by
  have h1 : L.toFinset ⊆ S.toFinset := by
    intro a ha
    exact List.mem_toFinset.2 (hsub a (List.mem_toFinset.1 ha))
  have h2 : L.length = L.toFinset.card := (List.toFinset_card_of_nodup hL).symm
  have h3 : L.toFinset.card ≤ S.toFinset.card := Finset.card_le_card h1
  have h4 : S.toFinset.card ≤ S.length := List.toFinset_card_le S
  have h5 : S.toFinset.card ≠ S.length := by
    intro hc
    apply hS
    have hd : S.dedup.length = S.length := by
      rw [← List.card_toFinset]
      exact hc
    have he : S.dedup = S := (List.dedup_sublist S).eq_of_length hd
    rw [← he]
    exact S.nodup_dedup
  omega

/-- Filtering with a stronger condition yields a sublist of filtering with a
weaker one. -/
theorem filter_sublist_of_imp {α : Type} (l : List α) {p q : α → Bool}
    (h : ∀ a, p a = true → q a = true) : List.Sublist (l.filter p) (l.filter q) := by
  induction l with
  | nil => simp
  | cons a t ih =>
    by_cases hp : p a = true
    · rw [List.filter_cons_of_pos hp, List.filter_cons_of_pos (h a hp)]
      exact ih.cons₂ a
    · rw [List.filter_cons_of_neg hp]
      by_cases hq : q a = true
      · rw [List.filter_cons_of_pos hq]
        exact ih.cons a
      · rw [List.filter_cons_of_neg hq]
        exact ih

/-! ### Lemmas about the creation path -/

theorem foundPlayers_ids_nodup (st : Store) (pids : List Nat)
    (hids : (st.players.map Player.id).Nodup) :
    ((foundPlayers st pids).map Player.id).Nodup := by
  have hsub : List.Sublist ((foundPlayers st pids).map Player.id) (st.players.map Player.id) :=
    (List.filter_sublist st.players).map Player.id
  exact List.Nodup.sublist hsub hids

theorem mem_found_ids (st : Store) (pids : List Nat) (a : Nat) :
    a ∈ (foundPlayers st pids).map Player.id ↔ (∃ p ∈ st.players, p.id = a) ∧ a ∈ pids := by
  constructor
  · intro ha
    rcases List.mem_map.1 ha with ⟨p, hp, rfl⟩
    rcases List.mem_filter.1 hp with ⟨hpm, hcond⟩
    exact ⟨⟨p, hpm, rfl⟩, by simpa using hcond⟩
  · rintro ⟨⟨p, hpm, rfl⟩, hin⟩
    exact List.mem_map.2 ⟨p, List.mem_filter.2 ⟨hpm, by simpa using hin⟩, rfl⟩

theorem found_length_eq (st : Store) (pids : List Nat)
    (hids : (st.players.map Player.id).Nodup) (hnd : pids.Nodup)
    (hex : ∀ x ∈ pids, ∃ p ∈ st.players, p.id = x) :
    (foundPlayers st pids).length = pids.length := by
  have hlen : (foundPlayers st pids).length = ((foundPlayers st pids).map Player.id).length :=
    (List.length_map _ _).symm
  rw [hlen]
  apply nodup_length_eq_of_mem_iff (foundPlayers_ids_nodup st pids hids) hnd
  intro a
  rw [mem_found_ids]
  constructor
  · rintro ⟨-, ha⟩
    exact ha
  · intro ha
    exact ⟨hex a ha, ha⟩

theorem found_length_lt_missing (st : Store) (pids : List Nat) (x : Nat)
    (hids : (st.players.map Player.id).Nodup) (hx : x ∈ pids)
    (hmiss : ∀ p ∈ st.players, p.id ≠ x) :
    (foundPlayers st pids).length < pids.length := by
  have hlen : (foundPlayers st pids).length = ((foundPlayers st pids).map Player.id).length :=
    (List.length_map _ _).symm
  rw [hlen]
  apply nodup_length_lt_of_missing (foundPlayers_ids_nodup st pids hids) _ hx
  · intro hxin
    rcases (mem_found_ids st pids x).1 hxin with ⟨⟨p, hpm, hpe⟩, -⟩
    exact hmiss p hpm hpe
  · intro a ha
    exact ((mem_found_ids st pids a).1 ha).2

theorem found_length_lt_dup (st : Store) (pids : List Nat)
    (hids : (st.players.map Player.id).Nodup) (hdup : ¬ pids.Nodup) :
    (foundPlayers st pids).length < pids.length := by
  have hlen : (foundPlayers st pids).length = ((foundPlayers st pids).map Player.id).length :=
    (List.length_map _ _).symm
  rw [hlen]
  apply nodup_length_lt_of_dup (foundPlayers_ids_nodup st pids hids) _ hdup
  intro a ha
  exact ((mem_found_ids st pids a).1 ha).2

theorem mkGPs_map_seat (gid : Nat) :
    ∀ (pids : List Nat) (base i : Nat),
    (mkGPs gid base i pids).map GamePlayer.seat = List.range' (i + 1) pids.length := by
  intro pids
  induction pids with
  | nil => intro base i; simp [mkGPs, List.range']
  | cons pid rest ih => intro base i; simp [mkGPs, List.range', ih]

theorem mkGPs_map_player (gid : Nat) :
    ∀ (pids : List Nat) (base i : Nat),
    (mkGPs gid base i pids).map GamePlayer.player_id = pids := by
  intro pids
  induction pids with
  | nil => intro base i; simp [mkGPs]
  | cons pid rest ih => intro base i; simp [mkGPs, ih]

theorem mkGPs_score (gid : Nat) :
    ∀ (pids : List Nat) (base i : Nat), ∀ gp ∈ mkGPs gid base i pids, gp.score = 0 := by
  intro pids
  induction pids with
  | nil => intro base i gp h; simp [mkGPs] at h
  | cons pid rest ih =>
    intro base i gp h
    rcases List.mem_cons.1 h with h1 | h1
    · rw [h1]
    · exact ih (base + 1) (i + 1) gp h1

theorem mkGPs_game (gid : Nat) :
    ∀ (pids : List Nat) (base i : Nat), ∀ gp ∈ mkGPs gid base i pids, gp.game_id = gid := by
  intro pids
  induction pids with
  | nil => intro base i gp h; simp [mkGPs] at h
  | cons pid rest ih =>
    intro base i gp h
    rcases List.mem_cons.1 h with h1 | h1
    · rw [h1]
    · exact ih (base + 1) (i + 1) gp h1

theorem insGPs_ok (gid : Nat) :
    ∀ (pids : List Nat) (i : Nat) (st : Store),
    insGPs gid none pids i st = Sum.inl { st with
      game_players := st.game_players ++ mkGPs gid st.nextId i pids,
      nextId := st.nextId + pids.length } := by
  intro pids
  induction pids with
  | nil => intro i st; simp [insGPs, mkGPs]
  | cons pid rest ih =>
    intro i st
    simp only [insGPs]
    rw [if_neg (by simp)]
    rw [ih]
    simp only [mkGPs, Sum.inl.injEq, Store.mk.injEq, List.length_cons]
    refine ⟨trivial, trivial, ?_, trivial, ?_, trivial⟩
    · simp [List.append_assoc]
    · omega

theorem insGPs_fail (gid k : Nat) :
    ∀ (pids : List Nat) (i : Nat) (st : Store), i < k → k ≤ i + pids.length →
    insGPs gid (some k) pids i st = Sum.inr { st with
      game_players := st.game_players ++ mkGPs gid st.nextId i (pids.take (k - 1 - i)),
      nextId := st.nextId + (k - 1 - i) } := by
  intro pids
  induction pids with
  | nil => intro i st h1 h2; simp at h2; omega
  | cons pid rest ih =>
    intro i st h1 h2
    by_cases hk : k = i + 1
    · subst hk
      simp only [insGPs, if_pos rfl]
      have ht : i + 1 - 1 - i = 0 := by omega
      rw [ht]
      simp [mkGPs]
    · simp only [insGPs]
      rw [if_neg (by simp [hk])]
      rw [ih (i + 1) _ (by omega) (by simp only [List.length_cons] at h2; omega)]
      have ht : k - 1 - i = (k - 1 - (i + 1)) + 1 := by omega
      rw [ht, List.take_succ_cons]
      simp only [mkGPs, Sum.inr.injEq, Store.mk.injEq]
      refine ⟨trivial, trivial, ?_, trivial, ?_, trivial⟩
      · simp [List.append_assoc]
      · omega

/-! ### Claims about POST /games -/

/-- Claim C3: for every creation request with a list of N existing, distinct
player identifiers (2 <= N <= 5) and no store failure, exactly one Game row
and exactly N GamePlayer rows are created, the row for the i-th input
identifier carrying seat i+1 and score 0, so seats are exactly 1..N in input
order. -/
theorem games_create_ok (st : Store) (players : List Nat) (title : Option String)
    (cf : Option Nat)
    (hlen2 : 2 ≤ players.length) (hlen5 : players.length ≤ 5)
    (hnd : players.Nodup)
    (hids : (st.players.map Player.id).Nodup)
    (hex : ∀ x ∈ players, ∃ p ∈ st.players, p.id = x)
    (hfresh : ∀ gp ∈ st.game_players, gp.game_id ≠ st.nextId) :
    postGames st players title false none cf =
      (Resp.ok ({ id := st.nextId, title := title },
        mkGPs st.nextId (st.nextId + 1) 0 players),
       { st with
         games := st.games ++ [{ id := st.nextId, title := title }],
         game_players := st.game_players ++ mkGPs st.nextId (st.nextId + 1) 0 players,
         nextId := st.nextId + 1 + players.length }) ∧
    (mkGPs st.nextId (st.nextId + 1) 0 players).map GamePlayer.seat =
      List.range' 1 players.length ∧
    (mkGPs st.nextId (st.nextId + 1) 0 players).map GamePlayer.player_id = players ∧
    (∀ gp ∈ mkGPs st.nextId (st.nextId + 1) 0 players, gp.score = 0) := by
  refine ⟨?_, mkGPs_map_seat _ _ _ 0, mkGPs_map_player _ _ _ 0, mkGPs_score _ _ _ 0⟩
  have hfilter : (st.game_players ++ mkGPs st.nextId (st.nextId + 1) 0 players).filter
      (fun gp => gp.game_id = st.nextId) = mkGPs st.nextId (st.nextId + 1) 0 players := by
    rw [List.filter_append]
    have h1 : st.game_players.filter (fun gp => gp.game_id = st.nextId) = [] := by
      apply List.filter_eq_nil_iff.2
      intro gp hgp
      simpa using hfresh gp hgp
    have h2 : (mkGPs st.nextId (st.nextId + 1) 0 players).filter
        (fun gp => gp.game_id = st.nextId) = mkGPs st.nextId (st.nextId + 1) 0 players := by
      apply List.filter_eq_self.2
      intro gp hgp
      simpa using mkGPs_game st.nextId players (st.nextId + 1) 0 gp hgp
    rw [h1, h2, List.nil_append]
  have hins := insGPs_ok st.nextId players 0
    { st with
      games := st.games ++ [{ id := st.nextId, title := title }],
      nextId := st.nextId + 1 }
  unfold postGames
  rw [if_neg (by omega)]
  rw [if_neg (not_ne_iff.2 (found_length_eq st players hids hnd hex))]
  rw [if_neg (by simp)]
  dsimp only
  rw [hins]
  dsimp only
  rw [hfilter]

/-- Claim C4: if the k-th of N GamePlayer inserts fails during creation
(1 <= k <= N) and the compensation calls succeed, the rollback removes all
GamePlayer rows of the attempted game and then the Game row, and the insert
error propagates: only the id/time counters differ from the initial state. -/
theorem games_create_fail_rolls_back (st : Store) (players : List Nat) (title : Option String)
    (k : Nat)
    (hlen2 : 2 ≤ players.length) (hlen5 : players.length ≤ 5)
    (hnd : players.Nodup)
    (hids : (st.players.map Player.id).Nodup)
    (hex : ∀ x ∈ players, ∃ p ∈ st.players, p.id = x)
    (hk1 : 1 ≤ k) (hkN : k ≤ players.length)
    (hfreshG : ∀ g ∈ st.games, g.id ≠ st.nextId)
    (hfreshGP : ∀ gp ∈ st.game_players, gp.game_id ≠ st.nextId) :
    postGames st players title false (some k) none =
      (Resp.serverErr "game_players insert failed", { st with nextId := st.nextId + k }) := by
  have hins := insGPs_fail st.nextId k players 0
    { st with
      games := st.games ++ [{ id := st.nextId, title := title }],
      nextId := st.nextId + 1 }
    (by omega) (by omega)
  unfold postGames
  rw [if_neg (by omega)]
  rw [if_neg (not_ne_iff.2 (found_length_eq st players hids hnd hex))]
  rw [if_neg (by simp)]
  dsimp only
  rw [hins]
  dsimp only
  unfold cleanupGame
  rw [if_neg (by simp)]
  rw [if_neg (by simp)]
  dsimp only
  have hgps : (st.game_players ++
      mkGPs st.nextId (st.nextId + 1) 0 (players.take (k - 1 - 0))).filter
      (fun gp => ¬ gp.game_id = st.nextId) = st.game_players := by
    rw [List.filter_append]
    have h1 : st.game_players.filter (fun gp => ¬ gp.game_id = st.nextId) = st.game_players := by
      apply List.filter_eq_self.2
      intro gp hgp
      simpa using hfreshGP gp hgp
    have h2 : (mkGPs st.nextId (st.nextId + 1) 0 (players.take (k - 1 - 0))).filter
        (fun gp => ¬ gp.game_id = st.nextId) = [] := by
      apply List.filter_eq_nil_iff.2
      intro gp hgp
      simpa using mkGPs_game st.nextId _ (st.nextId + 1) 0 gp hgp
    rw [h1, h2, List.append_nil]
  have hgames : (st.games ++ [({ id := st.nextId, title := title } : Game)]).filter
      (fun g => ¬ g.id = st.nextId) = st.games := by
    rw [List.filter_append]
    have h1 : st.games.filter (fun g => ¬ g.id = st.nextId) = st.games := by
      apply List.filter_eq_self.2
      intro g hg
      simpa using hfreshG g hg
    have h2 : ([({ id := st.nextId, title := title } : Game)]).filter
        (fun g => ¬ g.id = st.nextId) = [] := by
      simp
    rw [h1, h2, List.append_nil]
  simp only [hgps, hgames, Prod.mk.injEq, Store.mk.injEq]
  refine ⟨trivial, trivial, trivial, trivial, trivial, by omega, trivial⟩

/-- Claim C6: a creation request of 2 to 5 identifiers in which some
identifier resolves to no player record fails with the validation error
before any write: the store is unchanged, whatever the failure oracles. -/
theorem games_create_missing_player (st : Store) (players : List Nat) (title : Option String)
    (gif : Bool) (gpf cf : Option Nat)
    (hlen2 : 2 ≤ players.length) (hlen5 : players.length ≤ 5)
    (hids : (st.players.map Player.id).Nodup)
    (hmiss : ∃ x ∈ players, ∀ p ∈ st.players, p.id ≠ x) :
    postGames st players title gif gpf cf =
      (Resp.clientErr "One or more players not found", st) := by
  obtain ⟨x, hx, hxa⟩ := hmiss
  have hlt := found_length_lt_missing st players x hids hx hxa
  unfold postGames
  rw [if_neg (by omega)]
  rw [if_pos (by omega)]

/-- Claim C9, counterexample: a body with no players list (the legacy
max_players/title shape) is rejected with the 2..5 validation error, not
answered with a created game. -/
theorem games_legacy_body_cex :
    postGames sampleStore [] (some "Friday") false none none =
      (Resp.clientErr "max_players must be 2..5", sampleStore) := rfl

/-- Claim C9, amended: a POST body carrying no players list (the legacy
max_players/title shape) always fails with the 2..5 validation error and
leaves the store unchanged. -/
theorem games_legacy_body_rejected (st : Store) (title : Option String)
    (gif : Bool) (gpf cf : Option Nat) :
    postGames st [] title gif gpf cf =
      (Resp.clientErr "max_players must be 2..5", st) := by
  unfold postGames
  rw [if_pos (by simp)]

/-- Witness for games_create_ok at a concrete store and input. -/
theorem games_create_ok_witness :
    postGames sampleStore [10, 11, 12] (some "t") false none none =
      (Resp.ok ({ id := 100, title := some "t" },
        mkGPs 100 101 0 [10, 11, 12]),
       { sampleStore with
         games := sampleStore.games ++ [{ id := 100, title := some "t" }],
         game_players := sampleStore.game_players ++ mkGPs 100 101 0 [10, 11, 12],
         nextId := 104 }) ∧
    (mkGPs 100 101 0 [10, 11, 12]).map GamePlayer.seat = List.range' 1 3 ∧
    (mkGPs 100 101 0 [10, 11, 12]).map GamePlayer.player_id = [10, 11, 12] ∧
    (∀ gp ∈ mkGPs 100 101 0 [10, 11, 12], gp.score = 0) :=
  games_create_ok sampleStore [10, 11, 12] (some "t") none
    (by decide) (by decide) (by decide) (by decide) (by decide) (by decide)

/-- Witness for games_create_fail_rolls_back at a concrete store, failing on
the second insert. -/
theorem games_create_fail_rolls_back_witness :
    postGames sampleStore [10, 11, 12] none false (some 2) none =
      (Resp.serverErr "game_players insert failed", { sampleStore with nextId := 102 }) :=
  games_create_fail_rolls_back sampleStore [10, 11, 12] none 2
    (by decide) (by decide) (by decide) (by decide) (by decide) (by decide) (by decide)
    (by decide) (by decide)

/-- Witness for games_create_missing_player at a concrete store: id 99 does
not exist. -/
theorem games_create_missing_player_witness :
    postGames sampleStore [10, 11, 99] none false none none =
      (Resp.clientErr "One or more players not found", sampleStore) :=
  games_create_missing_player sampleStore [10, 11, 99] none false none none
    (by decide) (by decide) (by decide) (by decide)

/-! ### Lemmas about the round path -/

theorem find?_eq_filter_head {α : Type} (p : α → Bool) :
    ∀ l : List α, l.find? p = (l.filter p).head? := by
  intro l
  induction l with
  | nil => rfl
  | cons a t ih =>
    by_cases h : p a = true
    · rw [List.find?_cons_of_pos _ h, List.filter_cons_of_pos h]
      rfl
    · rw [List.find?_cons_of_neg _ h, List.filter_cons_of_neg h, ih]

theorem gp_filter_and_eq (l : List GamePlayer) (gid pid : Nat) :
    l.filter (fun gp => gp.game_id = gid ∧ gp.player_id = pid) =
      (l.filter (fun gp => gp.game_id = gid)).filter (fun gp => gp.player_id = pid) := by
  rw [List.filter_filter]
  apply List.filter_congr
  intro gp _
  by_cases h1 : gp.game_id = gid <;> by_cases h2 : gp.player_id = pid <;> simp [h1, h2]

theorem gp_filter_len_one (l : List GamePlayer) (gid pid : Nat)
    (hmem : ∃ gp ∈ l, gp.game_id = gid ∧ gp.player_id = pid)
    (hinv : perGameNodupL l gid) :
    (l.filter (fun gp => gp.game_id = gid ∧ gp.player_id = pid)).length = 1 := by
  obtain ⟨gp, hgp, h1, h2⟩ := hmem
  have hne : gp ∈ l.filter (fun gp => gp.game_id = gid ∧ gp.player_id = pid) :=
    List.mem_filter.2 ⟨hgp, by simp [h1, h2]⟩
  have hsub : List.Sublist
      ((l.filter (fun gp => gp.game_id = gid ∧ gp.player_id = pid)).map
        (fun gp => gp.player_id))
      ((l.filter (fun gp => gp.game_id = gid)).map (fun gp => gp.player_id)) := by
    apply List.Sublist.map
    rw [gp_filter_and_eq]
    exact List.filter_sublist _
  have hnd : ((l.filter (fun gp => gp.game_id = gid ∧ gp.player_id = pid)).map
      (fun gp => gp.player_id)).Nodup := List.Nodup.sublist hsub hinv
  rcases hF : l.filter (fun gp => gp.game_id = gid ∧ gp.player_id = pid) with - | ⟨x, t⟩
  · rw [hF] at hne
    simp at hne
  · rcases ht : t with - | ⟨y, t2⟩
    · rw [hF, ht]
      rfl
    · exfalso
      rw [hF, ht] at hnd
      have hx : x ∈ l.filter (fun gp => gp.game_id = gid ∧ gp.player_id = pid) := by
        rw [hF]; simp
      have hy : y ∈ l.filter (fun gp => gp.game_id = gid ∧ gp.player_id = pid) := by
        rw [hF, ht]; simp
      have hxp : x.player_id = pid := by
        have := (List.mem_filter.1 hx).2
        simp at this
        exact this.2
      have hyp : y.player_id = pid := by
        have := (List.mem_filter.1 hy).2
        simp at this
        exact this.2
      simp [hxp, hyp] at hnd

theorem findScoreL_eq_of_mem (l : List GamePlayer) (gid pid : Nat) (gp : GamePlayer)
    (hinv : perGameNodupL l gid) (hgp : gp ∈ l) (h1 : gp.game_id = gid)
    (h2 : gp.player_id = pid) :
    findScoreL l gid pid = gp.score := by
  have hlen := gp_filter_len_one l gid pid ⟨gp, hgp, h1, h2⟩ hinv
  have hgpf : gp ∈ l.filter (fun gp => gp.game_id = gid ∧ gp.player_id = pid) :=
    List.mem_filter.2 ⟨hgp, by simp [h1, h2]⟩
  rcases hF : l.filter (fun gp => gp.game_id = gid ∧ gp.player_id = pid) with - | ⟨x, t⟩
  · rw [hF] at hgpf
    simp at hgpf
  · have ht : t = [] := by
      rw [hF] at hlen
      simpa using hlen
    subst ht
    rw [hF] at hgpf
    have hx : gp = x := by simpa using hgpf
    unfold findScoreL
    rw [find?_eq_filter_head, hF]
    rw [← hx]
    rfl

theorem bump1_game_id (gid pid : Nat) (ns : Int) (gp : GamePlayer) :
    (bump1 gid pid ns gp).game_id = gp.game_id := by
  unfold bump1
  by_cases h : gp.game_id = gid ∧ gp.player_id = pid <;> simp [h]

theorem bump1_player_id (gid pid : Nat) (ns : Int) (gp : GamePlayer) :
    (bump1 gid pid ns gp).player_id = gp.player_id := by
  unfold bump1
  by_cases h : gp.game_id = gid ∧ gp.player_id = pid <;> simp [h]

theorem bumpScore_perGame (gid pid : Nat) (ns : Int) (l : List GamePlayer) :
    ((bumpScore gid pid ns l).filter (fun gp => gp.game_id = gid)).map (fun gp => gp.player_id) =
      (l.filter (fun gp => gp.game_id = gid)).map (fun gp => gp.player_id) := by
  induction l with
  | nil => rfl
  | cons a t ih =>
    show ((bump1 gid pid ns a :: bumpScore gid pid ns t).filter
        (fun gp => gp.game_id = gid)).map (fun gp => gp.player_id) = _
    by_cases hg : a.game_id = gid
    · rw [List.filter_cons_of_pos (by simp [bump1_game_id, hg]),
        List.filter_cons_of_pos (by simp [hg])]
      simp only [List.map_cons]
      rw [bump1_player_id, ih]
    · rw [List.filter_cons_of_neg (by simp [bump1_game_id, hg]),
        List.filter_cons_of_neg (by simp [hg])]
      exact ih

theorem perGameNodupL_bump (gid pid : Nat) (ns : Int) (l : List GamePlayer)
    (h : perGameNodupL l gid) : perGameNodupL (bumpScore gid pid ns l) gid := by
  unfold perGameNodupL
  rw [bumpScore_perGame]
  exact h

theorem mem_bump_of_mem (gid pid q : Nat) (ns : Int) (l : List GamePlayer)
    (h : ∃ gp ∈ l, gp.game_id = gid ∧ gp.player_id = q) :
    ∃ gp ∈ bumpScore gid pid ns l, gp.game_id = gid ∧ gp.player_id = q := by
  obtain ⟨gp, hgp, h1, h2⟩ := h
  unfold bumpScore
  refine ⟨bump1 gid pid ns gp, List.mem_map_of_mem _ hgp, ?_, ?_⟩
  · rw [bump1_game_id]; exact h1
  · rw [bump1_player_id]; exact h2

theorem findScoreL_bump_self (gid pid : Nat) (ns : Int) (l : List GamePlayer)
    (hmem : ∃ gp ∈ l, gp.game_id = gid ∧ gp.player_id = pid) :
    findScoreL (bumpScore gid pid ns l) gid pid = ns := by
  induction l with
  | nil => simp at hmem
  | cons a t ih =>
    obtain ⟨gp, hgp, h1, h2⟩ := hmem
    by_cases hb : a.game_id = gid ∧ a.player_id = pid
    · show findScoreL (bump1 gid pid ns a :: bumpScore gid pid ns t) gid pid = ns
      unfold findScoreL
      rw [List.find?_cons_of_pos _ (by simp [bump1_game_id, bump1_player_id, hb.1, hb.2])]
      show (bump1 gid pid ns a).score = ns
      unfold bump1
      rw [if_pos hb]
    · have hgt : gp ∈ t := by
        rcases List.mem_cons.1 hgp with h | h
        · exfalso; apply hb; rw [← h]; exact ⟨h1, h2⟩
        · exact h
      show findScoreL (bump1 gid pid ns a :: bumpScore gid pid ns t) gid pid = ns
      unfold findScoreL
      rw [List.find?_cons_of_neg _
        (by simp only [bump1_game_id, bump1_player_id, decide_eq_true_eq]; exact hb)]
      exact ih ⟨gp, hgt, h1, h2⟩

theorem findScoreL_bump_ne (gid pid q : Nat) (ns : Int) (l : List GamePlayer) (hq : q ≠ pid) :
    findScoreL (bumpScore gid pid ns l) gid q = findScoreL l gid q := by
  induction l with
  | nil => rfl
  | cons a t ih =>
    show findScoreL (bump1 gid pid ns a :: bumpScore gid pid ns t) gid q =
      findScoreL (a :: t) gid q
    by_cases hc : a.game_id = gid ∧ a.player_id = q
    · have hb : ¬ (a.game_id = gid ∧ a.player_id = pid) := by
        rintro ⟨-, hp2⟩
        apply hq
        rw [← hc.2, hp2]
      have hba : bump1 gid pid ns a = a := by
        unfold bump1
        rw [if_neg hb]
      rw [hba]
      unfold findScoreL
      rw [List.find?_cons_of_pos _ (by simp [hc.1, hc.2]),
        List.find?_cons_of_pos _ (by simp [hc.1, hc.2])]
    · have hcb : ¬ ((bump1 gid pid ns a).game_id = gid ∧ (bump1 gid pid ns a).player_id = q) := by
        rw [bump1_game_id, bump1_player_id]
        exact hc
      unfold findScoreL
      rw [List.find?_cons_of_neg _ (by simp only [decide_eq_true_eq]; exact hcb),
        List.find?_cons_of_neg _ (by simp only [decide_eq_true_eq]; exact hc)]
      exact ih

theorem lookup_cons_self (pid : Nat) (d : Int) (rest : List (Nat × Int)) :
    ((pid, d) :: rest).lookup pid = some d := by
  simp [List.lookup]

theorem lookup_cons_ne (k pid : Nat) (d : Int) (rest : List (Nat × Int)) (h : k ≠ pid) :
    ((k, d) :: rest).lookup pid = rest.lookup pid := by
  have hb : (pid == k) = false := by
    simp
    exact Ne.symm h
  simp [List.lookup, hb]

theorem lookup_eq_none_of_not_mem (rest : List (Nat × Int)) (a : Nat)
    (h : a ∉ rest.map Prod.fst) : rest.lookup a = none := by
  induction rest with
  | nil => rfl
  | cons b t ih =>
    obtain ⟨k, v⟩ := b
    simp only [List.map_cons, List.mem_cons] at h
    push_neg at h
    obtain ⟨h1, h2⟩ := h
    rw [lookup_cons_ne k a v t (Ne.symm h1)]
    exact ih h2

theorem applyDelta1_cons_match (gid pid : Nat) (d : Int) (rest : List (Nat × Int))
    (gp : GamePlayer) (h1 : gp.game_id = gid) (h2 : gp.player_id = pid) :
    applyDelta1 gid ((pid, d) :: rest) gp = { gp with score := gp.score + d } := by
  unfold applyDelta1
  rw [h2, lookup_cons_self]
  simp [h1]

theorem applyDelta1_cons_of_ne (gid pid : Nat) (d : Int) (rest : List (Nat × Int))
    (gp : GamePlayer) (hpid : pid ∉ rest.map Prod.fst)
    (hb : ¬ (gp.game_id = gid ∧ gp.player_id = pid)) :
    applyDelta1 gid ((pid, d) :: rest) gp = applyDelta1 gid rest gp := by
  unfold applyDelta1
  by_cases h2 : gp.player_id = pid
  · have h1 : ¬ gp.game_id = gid := fun h => hb ⟨h, h2⟩
    rw [h2, lookup_cons_self, lookup_eq_none_of_not_mem rest pid hpid]
    simp [h1]
  · rw [lookup_cons_ne pid gp.player_id d rest (Ne.symm h2)]

theorem applyDelta1_game_id (gid : Nat) (scores : List (Nat × Int)) (gp : GamePlayer) :
    (applyDelta1 gid scores gp).game_id = gp.game_id := by
  unfold applyDelta1
  cases scores.lookup gp.player_id with
  | none => rfl
  | some d => by_cases h : gp.game_id = gid <;> simp [h]

theorem applyDelta1_player_id (gid : Nat) (scores : List (Nat × Int)) (gp : GamePlayer) :
    (applyDelta1 gid scores gp).player_id = gp.player_id := by
  unfold applyDelta1
  cases scores.lookup gp.player_id with
  | none => rfl
  | some d => by_cases h : gp.game_id = gid <;> simp [h]

theorem applyDeltas_nil (gid : Nat) (l : List GamePlayer) : applyDeltas gid [] l = l := by
  induction l with
  | nil => rfl
  | cons a t ih =>
    show applyDelta1 gid [] a :: applyDeltas gid [] t = a :: t
    rw [ih]
    rfl

theorem applyDeltas_cons (gid pid : Nat) (d : Int) (rest : List (Nat × Int))
    (l : List GamePlayer) (hpid : pid ∉ rest.map Prod.fst) (hinv : perGameNodupL l gid) :
    applyDeltas gid ((pid, d) :: rest) l =
      applyDeltas gid rest (bumpScore gid pid (findScoreL l gid pid + d) l) := by
  unfold applyDeltas bumpScore
  rw [List.map_map]
  apply List.map_congr_left
  intro gp hgp
  show applyDelta1 gid ((pid, d) :: rest) gp =
    applyDelta1 gid rest (bump1 gid pid (findScoreL l gid pid + d) gp)
  by_cases hb : gp.game_id = gid ∧ gp.player_id = pid
  · obtain ⟨h1, h2⟩ := hb
    rw [applyDelta1_cons_match gid pid d rest gp h1 h2]
    have hbgp : bump1 gid pid (findScoreL l gid pid + d) gp =
        { gp with score := gp.score + d } := by
      unfold bump1
      rw [if_pos ⟨h1, h2⟩, findScoreL_eq_of_mem l gid pid gp hinv hgp h1 h2]
    rw [hbgp]
    unfold applyDelta1
    have hlk : rest.lookup ({ gp with score := gp.score + d } : GamePlayer).player_id = none := by
      show rest.lookup gp.player_id = none
      rw [h2]
      exact lookup_eq_none_of_not_mem rest pid hpid
    rw [hlk]
  · have hbgp : bump1 gid pid (findScoreL l gid pid + d) gp = gp := by
      unfold bump1
      rw [if_neg hb]
    rw [hbgp, applyDelta1_cons_of_ne gid pid d rest gp hpid hb]

theorem bump_applyDeltas_cons (gid pid : Nat) (d : Int) (rest : List (Nat × Int))
    (l : List GamePlayer) (hpid : pid ∉ rest.map Prod.fst) (hinv : perGameNodupL l gid) :
    bumpScore gid pid (findScoreL l gid pid) (applyDeltas gid ((pid, d) :: rest) l) =
      applyDeltas gid rest l := by
  unfold applyDeltas bumpScore
  rw [List.map_map]
  apply List.map_congr_left
  intro gp hgp
  show bump1 gid pid (findScoreL l gid pid) (applyDelta1 gid ((pid, d) :: rest) gp) =
    applyDelta1 gid rest gp
  by_cases hb : gp.game_id = gid ∧ gp.player_id = pid
  · obtain ⟨h1, h2⟩ := hb
    rw [applyDelta1_cons_match gid pid d rest gp h1 h2]
    have hrest : applyDelta1 gid rest gp = gp := by
      unfold applyDelta1
      have hlk : rest.lookup gp.player_id = none := by
        rw [h2]
        exact lookup_eq_none_of_not_mem rest pid hpid
      rw [hlk]
    rw [hrest]
    unfold bump1
    rw [if_pos (show ({ gp with score := gp.score + d } : GamePlayer).game_id = gid ∧
      ({ gp with score := gp.score + d } : GamePlayer).player_id = pid from ⟨h1, h2⟩)]
    rw [findScoreL_eq_of_mem l gid pid gp hinv hgp h1 h2]
  · rw [applyDelta1_cons_of_ne gid pid d rest gp hpid hb]
    unfold bump1
    rw [if_neg (by rw [applyDelta1_game_id, applyDelta1_player_id]; exact hb)]

theorem roundLoop_ok (gid : Nat) (note : Option String) :
    ∀ (scores : List (Nat × Int)) (i : Nat) (st : Store) (ins : List Nat)
      (res : List RoundResult),
    (scores.map Prod.fst).Nodup →
    (∀ pid ∈ scores.map Prod.fst, ∃ gp ∈ st.game_players,
      gp.game_id = gid ∧ gp.player_id = pid) →
    perGameNodupL st.game_players gid →
    roundLoop gid note none scores i st ins res =
      ({ st with
        game_players := applyDeltas gid scores st.game_players,
        score_updates := st.score_updates ++ mkUpdates gid note st.nextId st.nextTime scores,
        nextId := st.nextId + scores.length,
        nextTime := st.nextTime + scores.length },
       ins ++ mkIds st.nextId scores.length,
       res ++ roundResultsOf st.game_players gid scores,
       none) := by
  intro scores
  induction scores with
  | nil =>
    intro i st ins res hnd hmem hinv
    simp [roundLoop, applyDeltas_nil, mkUpdates, mkIds, roundResultsOf]
  | cons pd rest ih =>
    obtain ⟨pid, d⟩ := pd
    intro i st ins res hnd hmem hinv
    simp only [List.map_cons] at hnd
    have hpid : pid ∉ rest.map Prod.fst := (List.nodup_cons.1 hnd).1
    have hndr : (rest.map Prod.fst).Nodup := (List.nodup_cons.1 hnd).2
    have hmem0 : ∃ gp ∈ st.game_players, gp.game_id = gid ∧ gp.player_id = pid :=
      hmem pid (by simp)
    have hlen1 := gp_filter_len_one st.game_players gid pid hmem0 hinv
    have hrec := ih (i + 1)
      ({ st with
        game_players := bumpScore gid pid (findScoreL st.game_players gid pid + d)
          st.game_players,
        score_updates := st.score_updates ++
          [{ id := st.nextId, game_id := gid, player_id := pid, delta := d,
             created_at := st.nextTime, note := note }],
        nextId := st.nextId + 1,
        nextTime := st.nextTime + 1 })
      (ins ++ [st.nextId])
      (res ++ [⟨pid, d, findScoreL st.game_players gid pid + d⟩])
      hndr
      (by
        intro q hq
        dsimp only
        exact mem_bump_of_mem gid pid q _ st.game_players (hmem q (by simp [hq])))
      (by
        dsimp only
        exact perGameNodupL_bump gid pid _ st.game_players hinv)
    simp only [roundLoop]
    rw [if_neg (by simp)]
    rw [if_neg (by simp)]
    rw [if_neg (by rw [hlen1]; omega)]
    rw [if_neg (by simp)]
    rw [if_neg (by rw [hlen1]; omega)]
    rw [hrec]
    have hgps : applyDeltas gid rest (bumpScore gid pid
        (findScoreL st.game_players gid pid + d) st.game_players) =
        applyDeltas gid ((pid, d) :: rest) st.game_players :=
      (applyDeltas_cons gid pid d rest st.game_players hpid hinv).symm
    have hres : roundResultsOf (bumpScore gid pid
        (findScoreL st.game_players gid pid + d) st.game_players) gid rest =
        roundResultsOf st.game_players gid rest := by
      unfold roundResultsOf
      apply List.map_congr_left
      intro pd hpd
      have hq : pd.1 ≠ pid := by
        intro he
        apply hpid
        rw [← he]
        exact List.mem_map_of_mem Prod.fst hpd
      rw [findScoreL_bump_ne gid pid pd.1 _ st.game_players hq]
    rw [hgps, hres]
    simp only [Prod.mk.injEq, Store.mk.injEq, mkUpdates, mkIds, roundResultsOf,
      List.map_cons, List.length_cons]
    refine ⟨⟨trivial, trivial, trivial, ?_, by omega, by omega⟩, ?_, ?_, trivial⟩
    · simp [List.append_assoc]
    · simp [List.append_assoc]
    · simp [List.append_assoc, roundResultsOf]

theorem memberPids_nodup (l : List GamePlayer) (gid : Nat) (pids : List Nat)
    (hinv : perGameNodupL l gid) :
    ((l.filter (fun gp => gp.game_id = gid ∧ gp.player_id ∈ pids)).map
      (fun gp => gp.player_id)).Nodup := by
  apply List.Nodup.sublist _ hinv
  apply List.Sublist.map
  apply filter_sublist_of_imp
  intro gp hgp
  simp only [decide_eq_true_eq] at hgp ⊢
  exact hgp.1

theorem memberPids_sub (l : List GamePlayer) (gid : Nat) (pids : List Nat) :
    ∀ a ∈ (l.filter (fun gp => gp.game_id = gid ∧ gp.player_id ∈ pids)).map
      (fun gp => gp.player_id), a ∈ pids := by
  intro a ha
  rcases List.mem_map.1 ha with ⟨gp, hgp, rfl⟩
  have h := (List.mem_filter.1 hgp).2
  simp only [decide_eq_true_eq] at h
  exact h.2

theorem memberPids_len_eq (l : List GamePlayer) (gid : Nat) (pids : List Nat)
    (hinv : perGameNodupL l gid) (hnd : pids.Nodup)
    (hmem : ∀ pid ∈ pids, ∃ gp ∈ l, gp.game_id = gid ∧ gp.player_id = pid) :
    ((l.filter (fun gp => gp.game_id = gid ∧ gp.player_id ∈ pids)).map
      (fun gp => gp.player_id)).length = pids.length := by
  apply nodup_length_eq_of_mem_iff (memberPids_nodup l gid pids hinv) hnd
  intro a
  constructor
  · exact memberPids_sub l gid pids a
  · intro ha
    obtain ⟨gp, hgp, h1, h2⟩ := hmem a ha
    apply List.mem_map.2
    refine ⟨gp, List.mem_filter.2 ⟨hgp, ?_⟩, h2⟩
    simp only [decide_eq_true_eq]
    exact ⟨h1, h2 ▸ ha⟩

/-! ### Claims about POST /games/:id/round, success and validation -/

/-- Claim C1: a round request whose (playerId, delta) pairs name distinct
current members of the game, when every store call succeeds, inserts exactly
one ScoreUpdate row per pair, ends with the game_players score of each named
player equal to its start value plus the delta, and answers success with one
(playerId, delta, newScore) entry per pair. -/
theorem round_apply_ok (st : Store) (gid : Nat) (scores : List (Nat × Int))
    (note : Option String) (rbFail : Option Nat)
    (hne : scores ≠ [])
    (hnz : ∀ pid ∈ scores.map Prod.fst, pid ≠ 0)
    (hnd : (scores.map Prod.fst).Nodup)
    (hmem : ∀ pid ∈ scores.map Prod.fst, ∃ gp ∈ st.game_players,
      gp.game_id = gid ∧ gp.player_id = pid)
    (hinv : perGameNodupL st.game_players gid) :
    postRound st gid scores note none rbFail =
      (Resp.ok (roundResultsOf st.game_players gid scores),
       { st with
         game_players := applyDeltas gid scores st.game_players,
         score_updates := st.score_updates ++
           mkUpdates gid note st.nextId st.nextTime scores,
         nextId := st.nextId + scores.length,
         nextTime := st.nextTime + scores.length }) := by
  have hloop := roundLoop_ok gid note scores 0 st [] [] hnd hmem hinv
  unfold postRound
  rw [if_neg hne]
  rw [if_neg (by
    simp only [List.any_eq_true]
    rintro ⟨pid, hpid, hz⟩
    exact hnz pid hpid (by simpa using hz))]
  rw [if_neg (not_ne_iff.2
    (memberPids_len_eq st.game_players gid (scores.map Prod.fst) hinv hnd hmem))]
  rw [hloop]
  simp

/-- Claim C7: a round request in which some listed playerId is not a member
of the target game fails with the membership validation error and performs
no writes, whatever the failure oracles. -/
theorem round_nonmember_rejected (st : Store) (gid : Nat) (scores : List (Nat × Int))
    (note : Option String) (failAt : Option (Nat × FailStep)) (rbFail : Option Nat)
    (hne : scores ≠ [])
    (hnz : ∀ pid ∈ scores.map Prod.fst, pid ≠ 0)
    (hinv : perGameNodupL st.game_players gid)
    (hmiss : ∃ pid ∈ scores.map Prod.fst, ∀ gp ∈ st.game_players,
      ¬ (gp.game_id = gid ∧ gp.player_id = pid)) :
    postRound st gid scores note failAt rbFail =
      (Resp.clientErr "one or more playerIds are not part of this game", st) := by
  obtain ⟨x, hx, hxa⟩ := hmiss
  have hlt : ((st.game_players.filter
      (fun gp => gp.game_id = gid ∧ gp.player_id ∈ scores.map Prod.fst)).map
      (fun gp => gp.player_id)).length < (scores.map Prod.fst).length := by
    apply nodup_length_lt_of_missing
      (memberPids_nodup st.game_players gid (scores.map Prod.fst) hinv)
      (memberPids_sub st.game_players gid (scores.map Prod.fst)) hx
    intro hxin
    rcases List.mem_map.1 hxin with ⟨gp, hgp, he⟩
    have hc := (List.mem_filter.1 hgp).2
    simp only [decide_eq_true_eq] at hc
    exact hxa gp (List.mem_filter.1 hgp).1 ⟨hc.1, he⟩
  unfold postRound
  rw [if_neg hne]
  rw [if_neg (by
    simp only [List.any_eq_true]
    rintro ⟨pid, hpid, hz⟩
    exact hnz pid hpid (by simpa using hz))]
  rw [if_pos (Nat.ne_of_lt hlt)]

/-- Claim C10: a creation request repeating an existing identifier, and a
round request repeating a member identifier, are both rejected by the
count-of-distinct-resolved-records comparison, with no writes. -/
theorem duplicate_ids_rejected (st : Store) (players : List Nat) (title : Option String)
    (gif : Bool) (gpf cf : Option Nat)
    (gid : Nat) (scores : List (Nat × Int)) (note : Option String)
    (failAt : Option (Nat × FailStep)) (rbFail : Option Nat)
    (hlen2 : 2 ≤ players.length) (hlen5 : players.length ≤ 5)
    (hdupC : ¬ players.Nodup)
    (hids : (st.players.map Player.id).Nodup)
    (hexC : ∀ x ∈ players, ∃ p ∈ st.players, p.id = x)
    (hnz : ∀ pid ∈ scores.map Prod.fst, pid ≠ 0)
    (hdupR : ¬ (scores.map Prod.fst).Nodup)
    (hinv : perGameNodupL st.game_players gid)
    (hmemR : ∀ pid ∈ scores.map Prod.fst, ∃ gp ∈ st.game_players,
      gp.game_id = gid ∧ gp.player_id = pid) :
    postGames st players title gif gpf cf =
      (Resp.clientErr "One or more players not found", st) ∧
    postRound st gid scores note failAt rbFail =
      (Resp.clientErr "one or more playerIds are not part of this game", st) := by
  constructor
  · have hlt := found_length_lt_dup st players hids hdupC
    unfold postGames
    rw [if_neg (by omega)]
    rw [if_pos (by omega)]
  · have hne : scores ≠ [] := by
      intro h
      rw [h] at hdupR
      simp at hdupR
    have hlt := nodup_length_lt_of_dup
      (memberPids_nodup st.game_players gid (scores.map Prod.fst) hinv)
      (memberPids_sub st.game_players gid (scores.map Prod.fst)) hdupR
    unfold postRound
    rw [if_neg hne]
    rw [if_neg (by
      simp only [List.any_eq_true]
      rintro ⟨pid, hpid, hz⟩
      exact hnz pid hpid (by simpa using hz))]
    rw [if_pos (Nat.ne_of_lt hlt)]

/-- Witness for round_apply_ok at a concrete store with deltas +5 and -2. -/
theorem round_apply_ok_witness :
    postRound roundStore 1 [(10, 5), (11, -2)] none none none =
      (Resp.ok (roundResultsOf roundStore.game_players 1 [(10, 5), (11, -2)]),
       { roundStore with
         game_players := applyDeltas 1 [(10, 5), (11, -2)] roundStore.game_players,
         score_updates := roundStore.score_updates ++
           mkUpdates 1 none roundStore.nextId roundStore.nextTime [(10, 5), (11, -2)],
         nextId := roundStore.nextId + 2,
         nextTime := roundStore.nextTime + 2 }) :=
  round_apply_ok roundStore 1 [(10, 5), (11, -2)] none none
    (by decide) (by decide) (by decide) (by decide) (by decide)

/-- Witness for round_nonmember_rejected: player 99 is not in the game. -/
theorem round_nonmember_rejected_witness :
    postRound roundStore 1 [(10, 5), (99, 1)] none none none =
      (Resp.clientErr "one or more playerIds are not part of this game", roundStore) :=
  round_nonmember_rejected roundStore 1 [(10, 5), (99, 1)] none none none
    (by decide) (by decide) (by decide) (by decide)

/-- Witness for duplicate_ids_rejected: id 10 repeated in both requests. -/
theorem duplicate_ids_rejected_witness :
    postGames roundStore [10, 10] none false none none =
      (Resp.clientErr "One or more players not found", roundStore) ∧
    postRound roundStore 1 [(10, 1), (10, 2)] none none none =
      (Resp.clientErr "one or more playerIds are not part of this game", roundStore) :=
  duplicate_ids_rejected roundStore [10, 10] none false none none
    1 [(10, 1), (10, 2)] none none none
    (by decide) (by decide) (by decide) (by decide) (by decide) (by decide) (by decide)
    (by decide) (by decide)

/-! ### The round loop under an injected failure -/

theorem roundLoop_fail (gid : Nat) (note : Option String) (fi : Nat) (step : FailStep) :
    ∀ (scores : List (Nat × Int)) (i : Nat) (st : Store) (ins : List Nat)
      (res : List RoundResult),
    i ≤ fi → fi - i < scores.length →
    (scores.map Prod.fst).Nodup →
    (∀ pid ∈ scores.map Prod.fst, ∃ gp ∈ st.game_players,
      gp.game_id = gid ∧ gp.player_id = pid) →
    perGameNodupL st.game_players gid →
    roundLoop gid note (some (fi, step)) scores i st ins res =
      ({ st with
        game_players := applyDeltas gid (scores.take (fi - i)) st.game_players,
        score_updates := st.score_updates ++
          mkUpdates gid note st.nextId st.nextTime (scores.take (fi - i + stepExtra step)),
        nextId := st.nextId + (fi - i + stepExtra step),
        nextTime := st.nextTime + (fi - i + stepExtra step) },
       ins ++ mkIds st.nextId (fi - i + stepExtra step),
       res ++ roundResultsOf st.game_players gid (scores.take (fi - i)),
       some (stepErr step)) := by
  intro scores
  induction scores with
  | nil =>
    intro i st ins res hle hbound hnd hmem hinv
    simp at hbound
  | cons pd rest ih =>
    obtain ⟨pid, d⟩ := pd
    intro i st ins res hle hbound hnd hmem hinv
    simp only [List.map_cons] at hnd
    have hpid : pid ∉ rest.map Prod.fst := (List.nodup_cons.1 hnd).1
    have hndr : (rest.map Prod.fst).Nodup := (List.nodup_cons.1 hnd).2
    have hmem0 : ∃ gp ∈ st.game_players, gp.game_id = gid ∧ gp.player_id = pid :=
      hmem pid (by simp)
    have hlen1 := gp_filter_len_one st.game_players gid pid hmem0 hinv
    by_cases heq : i = fi
    · subst heq
      have h0 : i - i = 0 := by omega
      cases step with
      | ins =>
        simp only [roundLoop]
        rw [if_pos trivial]
        rw [h0]
        simp [applyDeltas_nil, mkUpdates, mkIds, roundResultsOf, stepErr, stepExtra]
      | read =>
        simp only [roundLoop]
        rw [if_neg (by simp)]
        rw [if_pos trivial]
        rw [h0]
        simp only [stepExtra, stepErr, Nat.zero_add, List.take_succ_cons, List.take_zero]
        simp [applyDeltas_nil, mkUpdates, mkIds, roundResultsOf]
      | upd =>
        simp only [roundLoop]
        rw [if_neg (by simp)]
        rw [if_neg (by simp)]
        rw [if_neg (by rw [hlen1]; omega)]
        rw [if_pos trivial]
        rw [h0]
        simp only [stepExtra, stepErr, Nat.zero_add, List.take_succ_cons, List.take_zero]
        simp [applyDeltas_nil, mkUpdates, mkIds, roundResultsOf]
    · have hlt : i < fi := by omega
      have hrec := ih (i + 1)
        ({ st with
          game_players := bumpScore gid pid (findScoreL st.game_players gid pid + d)
            st.game_players,
          score_updates := st.score_updates ++
            [{ id := st.nextId, game_id := gid, player_id := pid, delta := d,
               created_at := st.nextTime, note := note }],
          nextId := st.nextId + 1,
          nextTime := st.nextTime + 1 })
        (ins ++ [st.nextId])
        (res ++ [⟨pid, d, findScoreL st.game_players gid pid + d⟩])
        (by omega)
        (by simp only [List.length_cons] at hbound; omega)
        hndr
        (by
          intro q hq
          dsimp only
          exact mem_bump_of_mem gid pid q _ st.game_players (hmem q (by simp [hq])))
        (by
          dsimp only
          exact perGameNodupL_bump gid pid _ st.game_players hinv)
      simp only [roundLoop]
      rw [if_neg (by
        simp only [Option.some.injEq, Prod.mk.injEq]
        rintro ⟨h, -⟩
        omega)]
      rw [if_neg (by
        simp only [Option.some.injEq, Prod.mk.injEq]
        rintro ⟨h, -⟩
        omega)]
      rw [if_neg (by rw [hlen1]; omega)]
      rw [if_neg (by
        simp only [Option.some.injEq, Prod.mk.injEq]
        rintro ⟨h, -⟩
        omega)]
      rw [if_neg (by rw [hlen1]; omega)]
      rw [hrec]
      have hm1 : fi - i = (fi - (i + 1)) + 1 := by omega
      have hm2 : fi - i + stepExtra step = (fi - (i + 1) + stepExtra step) + 1 := by omega
      have htake : ((pid, d) :: rest).take (fi - i) =
          (pid, d) :: rest.take (fi - (i + 1)) := by
        rw [hm1, List.take_succ_cons]
      have htake2 : ((pid, d) :: rest).take (fi - i + stepExtra step) =
          (pid, d) :: rest.take (fi - (i + 1) + stepExtra step) := by
        rw [hm2, List.take_succ_cons]
      have hpid_take : pid ∉ (rest.take (fi - (i + 1))).map Prod.fst := by
        intro h
        apply hpid
        rw [List.map_take] at h
        exact (List.take_subset _ _) h
      have hgps : applyDeltas gid (rest.take (fi - (i + 1)))
          (bumpScore gid pid (findScoreL st.game_players gid pid + d) st.game_players) =
          applyDeltas gid ((pid, d) :: rest.take (fi - (i + 1))) st.game_players :=
        (applyDeltas_cons gid pid d (rest.take (fi - (i + 1))) st.game_players
          hpid_take hinv).symm
      have hres : roundResultsOf (bumpScore gid pid
          (findScoreL st.game_players gid pid + d) st.game_players) gid
          (rest.take (fi - (i + 1))) =
          roundResultsOf st.game_players gid (rest.take (fi - (i + 1))) := by
        unfold roundResultsOf
        apply List.map_congr_left
        intro pd hpd
        have hq : pd.1 ≠ pid := by
          intro he
          apply hpid
          rw [← he]
          have : pd.1 ∈ (rest.take (fi - (i + 1))).map Prod.fst :=
            List.mem_map_of_mem Prod.fst hpd
          rw [List.map_take] at this
          exact (List.take_subset _ _) this
        rw [findScoreL_bump_ne gid pid pd.1 _ st.game_players hq]
      rw [htake, htake2, hgps, hres]
      simp only [Prod.mk.injEq, Store.mk.injEq, mkUpdates, mkIds, roundResultsOf,
        List.map_cons, List.length_cons, hm2]
      refine ⟨⟨trivial, trivial, trivial, ?_, by omega, by omega⟩, ?_, ?_, trivial⟩
      · simp [List.append_assoc]
      · simp [List.append_assoc]
      · simp [List.append_assoc, roundResultsOf]

theorem mem_mkIds : ∀ (n b x : Nat), x ∈ mkIds b n ↔ b ≤ x ∧ x < b + n := by
  intro n
  induction n with
  | zero =>
    intro b x
    simp [mkIds]
  | succ m ih =>
    intro b x
    simp only [mkIds, List.mem_cons, ih (b + 1) x]
    omega

theorem mkUpdates_id_bound (gid : Nat) (note : Option String) :
    ∀ (p : List (Nat × Int)) (b t : Nat) (u : ScoreUpdate),
    u ∈ mkUpdates gid note b t p → b ≤ u.id ∧ u.id < b + p.length := by
  intro p
  induction p with
  | nil =>
    intro b t u h
    simp [mkUpdates] at h
  | cons pd rest ih =>
    obtain ⟨pid, d⟩ := pd
    intro b t u h
    simp only [mkUpdates, List.mem_cons] at h
    rcases h with h | h
    · rw [h]
      simp only [List.length_cons]
      omega
    · have := ih (b + 1) (t + 1) u h
      simp only [List.length_cons]
      omega

theorem filter_out_mkIds (su W : List ScoreUpdate) (b n : Nat)
    (hold : ∀ u ∈ su, u.id < b)
    (hw : ∀ u ∈ W, b ≤ u.id ∧ u.id < b + n) :
    (su ++ W).filter (fun u => ¬ u.id ∈ mkIds b n) = su := by
  rw [List.filter_append]
  have h1 : su.filter (fun u => ¬ u.id ∈ mkIds b n) = su := by
    apply List.filter_eq_self.2
    intro u hu
    simp only [decide_eq_true_eq, mem_mkIds]
    have := hold u hu
    omega
  have h2 : W.filter (fun u => ¬ u.id ∈ mkIds b n) = [] := by
    apply List.filter_eq_nil_iff.2
    intro u hu
    simp only [decide_eq_true_eq, mem_mkIds, not_not]
    exact hw u hu
  rw [h1, h2, List.append_nil]

theorem revertScores_restores (gid : Nat) :
    ∀ (p : List (Nat × Int)) (c : Nat) (s : Store) (l : List GamePlayer),
    (p.map Prod.fst).Nodup →
    perGameNodupL l gid →
    s.game_players = applyDeltas gid p l →
    revertScores gid none (roundResultsOf l gid p) c s = { s with game_players := l } := by
  intro p
  induction p with
  | nil =>
    intro c s l hnd hinv hs
    rw [applyDeltas_nil] at hs
    show s = { s with game_players := l }
    rw [← hs]
  | cons pd rest ih =>
    obtain ⟨pid, d⟩ := pd
    intro c s l hnd hinv hs
    simp only [List.map_cons] at hnd
    have hpid : pid ∉ rest.map Prod.fst := (List.nodup_cons.1 hnd).1
    have hndr : (rest.map Prod.fst).Nodup := (List.nodup_cons.1 hnd).2
    show revertScores gid none
      (⟨pid, d, findScoreL l gid pid + d⟩ :: roundResultsOf l gid rest) c s = _
    simp only [revertScores]
    rw [if_neg (by simp)]
    rw [show findScoreL l gid pid + d - d = findScoreL l gid pid from by omega]
    have hs2 : ({ s with
        game_players := bumpScore gid pid (findScoreL l gid pid) s.game_players } :
          Store).game_players = applyDeltas gid rest l := by
      dsimp only
      rw [hs]
      exact bump_applyDeltas_cons gid pid d rest l hpid hinv
    rw [ih (c + 1) _ l hndr hinv hs2]

/-- Claim C5: when a step of the round loop fails at pair index fi, the
caller receives the error of the failed call whatever happens during
rollback; and when the rollback calls all succeed, the inserted ScoreUpdate
rows are deleted and (newScore - delta) is written back for every applied
change, restoring all four tables to their start state. -/
theorem round_fail_compensates (st : Store) (gid : Nat) (scores : List (Nat × Int))
    (note : Option String) (fi : Nat) (step : FailStep) (rbFail : Option Nat)
    (hne : scores ≠ [])
    (hnz : ∀ pid ∈ scores.map Prod.fst, pid ≠ 0)
    (hnd : (scores.map Prod.fst).Nodup)
    (hmem : ∀ pid ∈ scores.map Prod.fst, ∃ gp ∈ st.game_players,
      gp.game_id = gid ∧ gp.player_id = pid)
    (hinv : perGameNodupL st.game_players gid)
    (hfi : fi < scores.length)
    (huids : ∀ u ∈ st.score_updates, u.id < st.nextId) :
    (postRound st gid scores note (some (fi, step)) rbFail).1 =
      Resp.serverErr (stepErr step) ∧
    (rbFail = none →
      postRound st gid scores note (some (fi, step)) rbFail =
        (Resp.serverErr (stepErr step),
         { st with
           nextId := st.nextId + (fi + stepExtra step),
           nextTime := st.nextTime + (fi + stepExtra step) })) := by
  have hloop := roundLoop_fail gid note fi step scores 0 st [] []
    (by omega) (by omega) hnd hmem hinv
  simp only [Nat.sub_zero, List.nil_append] at hloop
  have hpost : postRound st gid scores note (some (fi, step)) rbFail =
      (Resp.serverErr (stepErr step),
       roundRollback gid (mkIds st.nextId (fi + stepExtra step))
         (roundResultsOf st.game_players gid (scores.take fi)) rbFail
         { st with
           game_players := applyDeltas gid (scores.take fi) st.game_players,
           score_updates := st.score_updates ++
             mkUpdates gid note st.nextId st.nextTime (scores.take (fi + stepExtra step)),
           nextId := st.nextId + (fi + stepExtra step),
           nextTime := st.nextTime + (fi + stepExtra step) }) := by
    unfold postRound
    rw [if_neg hne]
    rw [if_neg (by
      simp only [List.any_eq_true]
      rintro ⟨pid, hpid, hz⟩
      exact hnz pid hpid (by simpa using hz))]
    rw [if_neg (not_ne_iff.2
      (memberPids_len_eq st.game_players gid (scores.map Prod.fst) hinv hnd hmem))]
    rw [hloop]
  refine ⟨by rw [hpost], ?_⟩
  intro hrb
  subst hrb
  rw [hpost]
  unfold roundRollback
  rw [if_neg (by simp)]
  have hndt : ((scores.take fi).map Prod.fst).Nodup := by
    rw [List.map_take]
    exact List.Nodup.sublist (List.take_sublist _ _) hnd
  rcases Nat.eq_zero_or_pos (fi + stepExtra step) with hm | hm
  · have hfi0 : fi = 0 := by omega
    rw [hm, hfi0]
    simp [mkIds, List.take_zero, applyDeltas_nil, mkUpdates, roundResultsOf, revertScores]
  · obtain ⟨k, hk⟩ : ∃ k, fi + stepExtra step = k + 1 := ⟨fi + stepExtra step - 1, by omega⟩
    rw [hk]
    rw [if_neg (by simp [mkIds])]
    have hfil : (st.score_updates ++
        mkUpdates gid note st.nextId st.nextTime (scores.take (k + 1))).filter
        (fun u => ¬ u.id ∈ mkIds st.nextId (k + 1)) = st.score_updates := by
      apply filter_out_mkIds
      · exact huids
      · intro u hu
        have hb := mkUpdates_id_bound gid note (scores.take (k + 1)) st.nextId st.nextTime u hu
        have hlen : (scores.take (k + 1)).length ≤ k + 1 := by
          rw [List.length_take]
          omega
        omega
    rw [hfil]
    rw [revertScores_restores gid (scores.take fi) 1 _ st.game_players hndt hinv rfl]

/-- Witness for round_fail_compensates: failure at the score read of the
second pair, with a rollback that succeeds. -/
theorem round_fail_compensates_witness :
    (postRound roundStore 1 [(10, 5), (11, -2)] none (some (1, FailStep.read)) none).1 =
      Resp.serverErr (stepErr FailStep.read) ∧
    ((none : Option Nat) = none →
      postRound roundStore 1 [(10, 5), (11, -2)] none (some (1, FailStep.read)) none =
        (Resp.serverErr (stepErr FailStep.read),
         { roundStore with
           nextId := roundStore.nextId + (1 + stepExtra FailStep.read),
           nextTime := roundStore.nextTime + (1 + stepExtra FailStep.read) })) :=
  round_fail_compensates roundStore 1 [(10, 5), (11, -2)] none 1 FailStep.read none
    (by decide) (by decide) (by decide) (by decide) (by decide) (by decide) (by decide)

/-! ### Lemmas about the undo path -/

theorem pickLatest_mem : ∀ (l : List ScoreUpdate) (u : ScoreUpdate),
    pickLatest l = some u → u ∈ l := by
  intro l
  induction l with
  | nil =>
    intro u h
    simp [pickLatest] at h
  | cons a t ih =>
    intro u h
    cases hp : pickLatest t with
    | none =>
      simp only [pickLatest, hp] at h
      have hau : a = u := by simpa using h
      rw [← hau]
      exact List.mem_cons_self a t
    | some v =>
      simp only [pickLatest, hp] at h
      by_cases hc : a.created_at < v.created_at
      · rw [if_pos hc] at h
        have hvu : v = u := by simpa using h
        subst hvu
        exact List.mem_cons_of_mem a (ih v hp)
      · rw [if_neg hc] at h
        have hau : a = u := by simpa using h
        rw [← hau]
        exact List.mem_cons_self a t

theorem pickLatest_max (l : List ScoreUpdate) (u : ScoreUpdate)
    (hu : u ∈ l) (hmax : ∀ v ∈ l, v ≠ u → v.created_at < u.created_at) :
    pickLatest l = some u := by
  induction l with
  | nil => simp at hu
  | cons a t ih =>
    rcases List.mem_cons.1 hu with h | h
    · subst h
      cases hp : pickLatest t with
      | none => simp [pickLatest, hp]
      | some v =>
        have hv : v ∈ t := pickLatest_mem t v hp
        have hnlt : ¬ u.created_at < v.created_at := by
          by_cases hvu : v = u
          · rw [hvu]
            omega
          · have := hmax v (List.mem_cons_of_mem u hv) hvu
            omega
        simp only [pickLatest, hp]
        rw [if_neg hnlt]
    · by_cases ha : a = u
      · subst ha
        cases hp : pickLatest t with
        | none => simp [pickLatest, hp]
        | some v =>
          have hv : v ∈ t := pickLatest_mem t v hp
          have hnlt : ¬ a.created_at < v.created_at := by
            by_cases hvu : v = a
            · rw [hvu]
              omega
            · have := hmax v (List.mem_cons_of_mem a hv) hvu
              omega
          simp only [pickLatest, hp]
          rw [if_neg hnlt]
      · have hrec : pickLatest t = some u := by
          apply ih h
          intro v hv hne
          exact hmax v (List.mem_cons_of_mem a hv) hne
        have hlt : a.created_at < u.created_at :=
          hmax a (List.mem_cons_self a t) ha
        simp only [pickLatest, hrec]
        rw [if_pos hlt]

theorem find?_player_eq (l : List Player) (p : Player)
    (hids : (l.map Player.id).Nodup) (hp : p ∈ l) :
    l.find? (fun q => q.id = p.id) = some p := by
  induction l with
  | nil => simp at hp
  | cons a t ih =>
    simp only [List.map_cons] at hids
    have h1 : a.id ∉ t.map Player.id := (List.nodup_cons.1 hids).1
    have h2 : (t.map Player.id).Nodup := (List.nodup_cons.1 hids).2
    rcases List.mem_cons.1 hp with h | h
    · subst h
      rw [List.find?_cons_of_pos _ (by simp)]
    · have hane : ¬ (a.id = p.id) := by
        intro he
        apply h1
        rw [he]
        exact List.mem_map_of_mem Player.id h
      rw [List.find?_cons_of_neg _ (by simpa using hane)]
      exact ih h2 h

theorem filter_ne_id_eq_erase (l : List ScoreUpdate) (u : ScoreUpdate)
    (hids : (l.map ScoreUpdate.id).Nodup) (hu : u ∈ l) :
    l.filter (fun v => ¬ v.id = u.id) = l.erase u := by
  induction l with
  | nil => simp at hu
  | cons a t ih =>
    simp only [List.map_cons] at hids
    have h1 : a.id ∉ t.map ScoreUpdate.id := (List.nodup_cons.1 hids).1
    have h2 : (t.map ScoreUpdate.id).Nodup := (List.nodup_cons.1 hids).2
    rcases List.mem_cons.1 hu with h | h
    · subst h
      rw [List.filter_cons_of_neg (by simp)]
      rw [List.erase_cons_head]
      apply List.filter_eq_self.2
      intro v hv
      simp only [decide_eq_true_eq]
      intro he
      apply h1
      rw [← he]
      exact List.mem_map_of_mem ScoreUpdate.id hv
    · have haid : ¬ (a.id = u.id) := by
        intro he
        apply h1
        rw [he]
        exact List.mem_map_of_mem ScoreUpdate.id h
      have hau : ¬ (a == u) = true := by
        simp only [beq_iff_eq]
        intro he
        apply haid
        rw [he]
      rw [List.filter_cons_of_pos (by simp [haid])]
      rw [List.erase_cons_tail hau]
      rw [ih h2 h]

/-! ### Claims about POST /games/:id/undo -/

/-- Claim C2: on a game whose most-recently-created ScoreUpdate is u, undo
reads the score of the affected player from the players table, writes back
(score - delta) there, deletes exactly the ledger row u (earlier rows are
untouched, as are games and game_players), and reports the reverted id, the
affected player and the resulting score. -/
theorem undo_reverts_latest (st : Store) (gid : Nat) (u : ScoreUpdate) (p : Player)
    (hu : u ∈ st.score_updates) (hug : u.game_id = gid)
    (hmax : ∀ v ∈ st.score_updates, v.game_id = gid → v ≠ u →
      v.created_at < u.created_at)
    (hpids : (st.players.map Player.id).Nodup)
    (huids : (st.score_updates.map ScoreUpdate.id).Nodup)
    (hp : p ∈ st.players) (hpid : p.id = u.player_id) :
    postUndo st gid =
      (Resp.ok ⟨u.id, u.player_id, p.score - u.delta⟩,
       { st with
         players := st.players.map
           (fun q => if q.id = u.player_id then { q with score := p.score - u.delta } else q),
         score_updates := st.score_updates.erase u }) := by
  have hpick : pickLatest (st.score_updates.filter (fun v => v.game_id = gid)) = some u := by
    apply pickLatest_max
    · exact List.mem_filter.2 ⟨hu, by simp [hug]⟩
    · intro v hv hne
      have hv1 := (List.mem_filter.1 hv).1
      have hv2 := (List.mem_filter.1 hv).2
      simp only [decide_eq_true_eq] at hv2
      exact hmax v hv1 hv2 hne
  have hfind : st.players.find? (fun q => q.id = u.player_id) = some p := by
    rw [← hpid]
    exact find?_player_eq st.players p hpids hp
  have herase := filter_ne_id_eq_erase st.score_updates u huids hu
  unfold postUndo
  rw [hpick]
  dsimp only
  rw [hfind]
  dsimp only
  rw [herase]

/-- Claim C8: undo on a game with no ScoreUpdate rows fails with the
"no updates" client error and performs no writes. -/
theorem undo_no_updates (st : Store) (gid : Nat)
    (h : ∀ v ∈ st.score_updates, v.game_id ≠ gid) :
    postUndo st gid = (Resp.clientErr "no updates", st) := by
  have hfil : st.score_updates.filter (fun v => v.game_id = gid) = [] := by
    apply List.filter_eq_nil_iff.2
    intro v hv
    simpa using h v hv
  unfold postUndo
  rw [hfil]
  rfl

/-- Witness for undo_reverts_latest at a concrete store: the latest ledger
row is id 51 (player 11, delta -2), so player 11 ends at 3 - (-2) = 5. -/
theorem undo_reverts_latest_witness :
    postUndo undoStore 1 =
      (Resp.ok ⟨51, 11, (3 : Int) - (-2)⟩,
       { undoStore with
         players := undoStore.players.map
           (fun q => if q.id = 11 then { q with score := (3 : Int) - (-2) } else q),
         score_updates := undoStore.score_updates.erase ⟨51, 1, 11, -2, 501, none⟩ }) :=
  undo_reverts_latest undoStore 1 ⟨51, 1, 11, -2, 501, none⟩ ⟨11, "B", 3⟩
    (by decide) (by decide) (by decide) (by decide) (by decide) (by decide) (by decide)

/-- Witness for undo_no_updates at a concrete store with an empty ledger. -/
theorem undo_no_updates_witness :
    postUndo roundStore 1 = (Resp.clientErr "no updates", roundStore) :=
  undo_no_updates roundStore 1 (by decide)

end Billiard
